import Mathlib

/-!
# Verification of the AI-buddy activity core

Shallow embedding of the scoring policy (`policy.py`), recommender
(`recommender.py`), evaluator (`evaluate.py`), session/history model
(`session.py`) and the orchestrator's skill adaptation (`buddy.py`) of the
`ai_buddy` package, together with theorems settling the specification
claims about them.

Conventions of the embedding:
* Python floats are modelled by `ℚ`; all the literals involved
  (0.35, 0.20, 0.15, 0.10, 0.05, 0.6, 0.3, 0.1, 0.4, 0.5, 0.7, 0.03, 0.01)
  are exact decimal fractions, so every arithmetic identity claimed by the
  spec is exact over these weights.
* Python `min`/`max` on two floats are `pyMin`/`pyMax` (first argument kept
  on ties, as CPython does).
* Python string operations (`lower`, `strip`, `split`, substring `in`) are
  modelled on the character list of the string.
* Python `dict[str, float]` maps (`baseline_skills`) are modelled as
  association lists updated in place by `dictSet`.
* `datetime` timestamps are modelled as integers (only their ordering is
  read by the code under verification).
* Python's `list.sort`/`sorted` (Timsort) is a stable sort, whose output is
  uniquely determined: keys in the requested order, equal keys in input
  order.  The stable insertion sorts `sortByScoreDesc` /
  `sortByTimestampDesc` produce exactly that output.
* A Python function that can raise on some input is modelled with an
  `Option` result; `none` marks the raising input.
-/

/-- Python `min(a, b)` on floats: the first argument is kept on ties. -/
def pyMin (a b : ℚ) : ℚ := if b < a then b else a

/-- Python `max(a, b)` on floats: the first argument is kept on ties. -/
def pyMax (a b : ℚ) : ℚ := if a < b then b else a

/-- Python `s.lower()` (character-wise lower-casing). -/
def pyLower (s : String) : String := ⟨s.toList.map Char.toLower⟩

/-- Python `s.strip()` on a character list: drop whitespace from both ends. -/
def trimChars (l : List Char) : List Char :=
  ((l.dropWhile Char.isWhitespace).reverse.dropWhile Char.isWhitespace).reverse

/-- Python `s.strip()`. -/
def pyStrip (s : String) : String := ⟨trimChars s.toList⟩

/-- Python `s.lower().strip()` from `policy.normalize_text` /
`evaluate.normalize_text`. -/
def normalizeText (s : String) : String := pyStrip (pyLower s)

/-- Python's substring test `sub in s` on character lists (the empty string
is a substring of everything). -/
def containsSub (sub : List Char) : List Char → Bool
  | [] => sub.isEmpty
  | c :: rest => sub.isPrefixOf (c :: rest) || containsSub sub rest

/-- Python's substring test `sub in s` on strings. -/
def strInStr (sub s : String) : Bool := containsSub sub.toList s.toList

/-- Python `text.split(sep)` for the one-character separator `"."`:
all segments between occurrences of `'.'`, empty segments included. -/
def splitOnDot : List Char → List (List Char)
  | [] => [[]]
  | c :: rest =>
    match splitOnDot rest with
    | [] => [[]]
    | seg :: segs => if c = '.' then [] :: seg :: segs else (c :: seg) :: segs

/-- Outcome of one activity attempt (`session.ActivityAttempt.outcome`).
The Python literal `"partial"` is the `partialCredit` constructor. -/
inductive Outcome where
  | success
  | partialCredit
  | struggle
  | skipped
  deriving DecidableEq

/-- A Python value appearing in `rubric["answers"]` or as a submitted
answer: a string or a number (`Union[str, float, int]`). -/
inductive PyVal where
  | s (v : String)
  | n (v : ℚ)
  deriving DecidableEq

/-- The rubric bag with its recognized keys (`answers`, `numeric_tolerance`,
`min_sentences`, `keywords`), each optionally present; `rubric.get(key,
default)` in the source becomes `Option.getD`. -/
structure Rubric where
  answers : Option (List PyVal) := none
  numeric_tolerance : Option ℚ := none
  min_sentences : Option Nat := none
  keywords : Option (List String) := none
  deriving DecidableEq

/-- `data_models.Activity` restricted to the fields the core reads
(`title`, `description` and other presentation-only fields are omitted). -/
structure Activity where
  id : String
  type : String
  level : String
  skills : List String
  tags : List String
  estimated_min : Nat
  format : String
  rubric : Rubric := {}
  deriving DecidableEq

/-- `data_models.ChildProfile` restricted to the fields the core reads.
`baseline_skills` is the Python dict as an association list. -/
structure ChildProfile where
  id : String
  interests : List String
  learning_style : String
  attention_span_min : Nat
  baseline_skills : List (String × ℚ)
  deriving DecidableEq

/-- `session.ActivityAttempt` (the open `details` bag carries no behavior
read by the core and is omitted). -/
structure ActivityAttempt where
  activity_id : String
  timestamp : ℤ
  outcome : Outcome
  deriving DecidableEq

/-- `session.SessionLog`. -/
structure SessionLog where
  child_id : String
  attempts : List ActivityAttempt
  deriving DecidableEq

/-- Python `d.get(key, default)` on a skill dict. -/
def dictGetD (m : List (String × ℚ)) (key : String) (d : ℚ) : ℚ :=
  match m.find? (fun p => p.1 = key) with
  | some p => p.2
  | none => d

/-- Python `d[key] = v` on a skill dict: overwrite the first binding of the
key, or append a new binding at the end (dicts preserve insertion order). -/
def dictSet : List (String × ℚ) → String → ℚ → List (String × ℚ)
  | [], key, v => [(key, v)]
  | p :: rest, key, v =>
      if p.1 = key then (key, v) :: rest else p :: dictSet rest key v

/-- `policy.mean`: mean of a list, or the default when the list is empty. -/
def listMean (l : List ℚ) (d : ℚ) : ℚ :=
  if l = [] then d else l.sum / l.length

/-- `policy.skill_fit`: mean over `activity.skills` of
`child.baseline_skills.get(skill, 0.5)`. -/
def skill_fit (a : Activity) (c : ChildProfile) : ℚ :=
  listMean (a.skills.map (fun sk => dictGetD c.baseline_skills sk 0.5)) 0.5

/-- `policy.interest_fit`: 1.0 on a type match or a two-way substring match
between any tag and any interest (all case-folded and trimmed), else 0.4. -/
def interest_fit (a : Activity) (c : ChildProfile) : ℚ :=
  let activityType := normalizeText a.type
  let activityTags := a.tags.map normalizeText
  let childInterests := c.interests.map normalizeText
  if childInterests.contains activityType then 1
  else if activityTags.any (fun tag =>
      childInterests.any (fun int => strInStr tag int || strInStr int tag)) then 1
  else 0.4

/-- `policy.style_fit`: the fixed per-learning-style rule table; a match
scores 1.0, anything else (including an unknown style) scores 0.5. -/
def style_fit (a : Activity) (c : ChildProfile) : ℚ :=
  let activityType := normalizeText a.type
  let activityTags := a.tags.map normalizeText
  let activityFormat := normalizeText a.format
  if c.learning_style = "visual" then
    if activityTags.any (fun t => ["visual", "picture", "drawing"].contains t)
        || activityFormat = "freeform" then 1 else 0.5
  else if c.learning_style = "auditory" then
    if ["storytelling", "reading"].contains activityType
        || activityFormat = "freeform" then 1 else 0.5
  else if c.learning_style = "logical" then
    if ["math", "logic"].contains activityType
        || activityTags.any (fun t => ["puzzles", "reasoning"].contains t) then 1
    else 0.5
  else if c.learning_style = "kinesthetic" then
    if activityTags.any (fun t => ["quick", "applied", "fluency"].contains t)
        || a.estimated_min ≤ c.attention_span_min then 1 else 0.5
  else 0.5

/-- `policy.level_fit`: band alignment of the mean skill against the
activity level (any level other than easy/medium is treated as hard). -/
def level_fit (a : Activity) (c : ChildProfile) : ℚ :=
  let meanSkill := listMean (a.skills.map (fun sk => dictGetD c.baseline_skills sk 0.5)) 0.5
  let aligned :=
    if a.level = "easy" then meanSkill < 0.6
    else if a.level = "medium" then 0.6 ≤ meanSkill ∧ meanSkill ≤ 0.8
    else 0.8 < meanSkill
  let adjacent :=
    if a.level = "easy" then 0.6 ≤ meanSkill ∧ meanSkill ≤ 0.8
    else if a.level = "medium" then meanSkill < 0.6 ∨ 0.8 < meanSkill
    else 0.6 ≤ meanSkill ∧ meanSkill ≤ 0.8
  if aligned then 1 else if adjacent then 0.7 else 0.4

/-- `policy.time_fit`: 1.0 within the attention span, else
`0.5 + 0.5·(attention/estimated)` clamped to `[0.5, 1.0]`. -/
def time_fit (a : Activity) (c : ChildProfile) : ℚ :=
  if a.estimated_min ≤ c.attention_span_min then 1
  else
    pyMax 0.5 (pyMin 1 (0.5 + 0.5 * ((c.attention_span_min : ℚ) / (a.estimated_min : ℚ))))

/-- `policy.recency_penalty` as its signature and docstring declare it:
`history` is a list of activity-id strings, most recent first. -/
def recency_penalty (activityId : String) (history : List String) (recentK : Nat) : ℚ :=
  if history = [] then 0
  else if (history.take recentK).contains activityId then 1 else 0

/-- Python `==` between a `str` and a pydantic `SessionLog` model instance:
`BaseModel.__eq__` with a non-model operand yields `NotImplemented`, the
reflected `str.__eq__` fails too, so the comparison is always `False`. -/
def pyStrEqSessionLog (_ : String) (_ : SessionLog) : Bool := false

/-- `policy.recency_penalty` as `recommender.recommend_activities` actually
reaches it through `total_score`: the `history` argument it receives there
is the raw `List[SessionLog]`, so the membership test
`activity_id in history[:recent_k]` compares the id string against
`SessionLog` objects. -/
def recencyPenaltyOnLogs (activityId : String) (history : List SessionLog)
    (recentK : Nat) : ℚ :=
  if history = [] then 0
  else if (history.take recentK).any (fun s => pyStrEqSessionLog activityId s)
  then 1 else 0

/-- `policy.total_score` exactly as the recommender calls it: the weighted
sum of the five fits minus `0.05` times the recency penalty computed on the
session-log list it was (mis)given (`recent_k` defaulting to 2). -/
def total_score (a : Activity) (c : ChildProfile) (history : List SessionLog) : ℚ :=
  0.35 * skill_fit a c +
  0.20 * interest_fit a c +
  0.15 * style_fit a c +
  0.15 * level_fit a c +
  0.10 * time_fit a c -
  0.05 * recencyPenaltyOnLogs a.id history 2

/-- The weighted sum of the five positive fit components alone (what
`total_score` reduces to when the recency penalty is zero). -/
def baseScore (a : Activity) (c : ChildProfile) : ℚ :=
  0.35 * skill_fit a c +
  0.20 * interest_fit a c +
  0.15 * style_fit a c +
  0.15 * level_fit a c +
  0.10 * time_fit a c

/-- Stable insertion step for sorting attempts newest-timestamp-first:
an element is placed before the first strictly older element, so elements
with equal timestamps keep their input order (as Python's stable
`sorted(..., key=timestamp, reverse=True)` does). -/
def insertByTimestampDesc (a : ActivityAttempt) :
    List ActivityAttempt → List ActivityAttempt
  | [] => [a]
  | b :: rest =>
      if a.timestamp < b.timestamp then b :: insertByTimestampDesc a rest
      else a :: b :: rest

/-- Stable sort of attempts, newest timestamp first
(`sorted(all_attempts, key=lambda x: x.timestamp, reverse=True)`). -/
def sortByTimestampDesc (l : List ActivityAttempt) : List ActivityAttempt :=
  l.foldr insertByTimestampDesc []

/-- `session.recent_activity_ids`: flatten all attempts of all session
logs, sort newest first, return the ids of the first `k` attempts
(`k ≤ 0`, here `k = 0`, gives the empty list). -/
def recentActivityIds (history : List SessionLog) (k : Nat) : List String :=
  if k = 0 then []
  else
    (((sortByTimestampDesc ((history.map (fun s => s.attempts)).flatten)).take k).map
      (fun a => a.activity_id))

/-- `total_score` as §4.2 of the spec describes the ranking score: the same
weighted sum, with the recency penalty computed against the
most-recent-first activity-id list derived from the history. -/
def totalScoreSpec (a : Activity) (c : ChildProfile) (history : List SessionLog) : ℚ :=
  0.35 * skill_fit a c +
  0.20 * interest_fit a c +
  0.15 * style_fit a c +
  0.15 * level_fit a c +
  0.10 * time_fit a c -
  0.05 * recency_penalty a.id (recentActivityIds history 2) 2

/-- The scan inside `session.append_attempt`: find the first log whose
`child_id` matches and append the attempt to that log's attempt list;
`none` when no log matches. -/
def appendToFirstMatch : List SessionLog → String → ActivityAttempt →
    Option (List SessionLog)
  | [], _, _ => none
  | s :: rest, childId, a =>
      if s.child_id = childId then
        some ({ s with attempts := s.attempts ++ [a] } :: rest)
      else (appendToFirstMatch rest childId a).map (fun r => s :: r)

/-- `session.append_attempt`, with the aliasing Python exhibits made
explicit.  The source shallow-copies the history list
(`updated_history = history.copy()`), scans it for the first log whose
`child_id` matches, and *appends to that log's attempt list in place*;
the log object is shared with the caller's list, so the caller's original
history observes the same appended attempt.  The result pair is
`(updated_history, original history as observable after the call)`. -/
def appendAttempt (history : List SessionLog) (childId : String)
    (attempt : ActivityAttempt) : List SessionLog × List SessionLog :=
  match appendToFirstMatch history childId attempt with
  | some h => (h, h)
  | none =>
      (history ++ [{ child_id := childId, attempts := [attempt] }], history)


/-- Stable insertion step for sorting scored activities by descending
score: an element is placed before the first element with a score not
above its own, so equal scores keep their input (catalog) order, as
Python's stable `list.sort(key=score, reverse=True)` does. -/
def insertByScoreDesc (p : Activity × ℚ) :
    List (Activity × ℚ) → List (Activity × ℚ)
  | [] => [p]
  | q :: rest =>
      if p.2 < q.2 then q :: insertByScoreDesc p rest else p :: q :: rest

/-- Stable sort of scored activities, highest score first. -/
def sortByScoreDesc (l : List (Activity × ℚ)) : List (Activity × ℚ) :=
  l.foldr insertByScoreDesc []

/-- Steps 2–3 of `recommender.recommend_activities`: score every activity
of the catalog with `total_score` (the history passed through verbatim)
and sort descending by score. -/
def scoredSorted (c : ChildProfile) (acts : List Activity)
    (h : List SessionLog) : List (Activity × ℚ) :=
  sortByScoreDesc (acts.map (fun a => (a, total_score a c h)))

/-- The `selected_types` set of the diversity pass: the distinct activity
types of the selection, as a deduplicated list. -/
def distinctTypes (sel : List (Activity × ℚ)) : List String :=
  (sel.map (fun p => p.1.type)).dedup

/-- Python `min(selected, key=lambda x: x[1])`: the first element with the
minimal score; `none` for the empty list (where CPython raises
`ValueError`). -/
def minByScore : List (Activity × ℚ) → Option (Activity × ℚ)
  | [] => none
  | x :: xs => some (xs.foldl (fun acc y => if y.2 < acc.2 then y else acc) x)

/-- Python `selected.remove(item)`: drop the first occurrence equal to the
item (the recommender only calls it with a member, so the missing-element
`ValueError` cannot occur). -/
def eraseFirst : List (Activity × ℚ) → (Activity × ℚ) → List (Activity × ℚ)
  | [], _ => []
  | x :: xs, y => if x = y then xs else x :: eraseFirst xs y

/-- The `for … break` search of the diversity pass: walk the candidates
after position `k` in sorted order; at the first one whose type is not yet
represented, replace the lowest-scored selected item (removed where it
stood, the replacement appended at the end) and stop; if none qualifies,
leave the selection unchanged. -/
def diversifySearch (rest : List (Activity × ℚ)) (types : List String)
    (sel : List (Activity × ℚ)) (lowest : Activity × ℚ) : List (Activity × ℚ) :=
  match rest with
  | [] => sel
  | p :: rest' =>
      if types.contains p.1.type then diversifySearch rest' types sel lowest
      else eraseFirst sel lowest ++ [p]

/-- Step 4 of `recommender.recommend_activities` (diversity pass) on the
sorted scored list: take the top `k`, and when they span fewer than two
distinct types while more candidates exist beyond position `k`, substitute
for the lowest-scored selected item.  `none` models the `ValueError` that
`min(selected, …)` raises when the selection is empty (`k = 0` with a
non-empty catalog). -/
def diversityPass (scored : List (Activity × ℚ)) (k : Nat) :
    Option (List (Activity × ℚ)) :=
  if (distinctTypes (scored.take k)).length < 2 ∧ k < scored.length then
    match minByScore (scored.take k) with
    | none => none
    | some lowest =>
        some (diversifySearch (scored.drop k) (distinctTypes (scored.take k))
          (scored.take k) lowest)
  else some (scored.take k)

/-- The `temp_history` of the fallback in `recommend_activities`: drop all
attempts of the activity being scored from every log, and drop the logs
left empty. -/
def relaxedHistory (h : List SessionLog) (activityId : String) : List SessionLog :=
  (h.map (fun s =>
    { child_id := s.child_id
      attempts := s.attempts.filter (fun att => att.activity_id != activityId) })).filter
    (fun s => !s.attempts.isEmpty)

/-- Step 5 of `recommend_activities` (safety fallback): re-score every
catalog activity against its own relaxed history, re-sort descending, and
take the top `k`. -/
def fallbackSelect (c : ChildProfile) (acts : List Activity)
    (h : List SessionLog) (k : Nat) : List (Activity × ℚ) :=
  (sortByScoreDesc (acts.map (fun a =>
    (a, total_score a c (relaxedHistory h a.id))))).take k

/-- `recommender.recommend_activities`.  An empty catalog short-circuits to
the empty list; otherwise score+sort, diversity pass, fallback when fewer
than two items remain selected, and return the activities of the first
`min(k, 3)` selected pairs.  `none` models the `ValueError` raised when
`k = 0` meets a non-empty catalog (see `diversityPass`). -/
def recommendActivities (c : ChildProfile) (acts : List Activity)
    (h : List SessionLog) (k : Nat) : Option (List Activity) :=
  if acts = [] then some []
  else
    match diversityPass (scoredSorted c acts h) k with
    | none => none
    | some sel =>
        let sel2 := if sel.length < 2 then fallbackSelect c acts h k else sel
        some ((sel2.take (min k 3)).map (fun p => p.1))

/-- One entry of `component_scores` in `recommender.explain_recommendation`. -/
structure ScoreComponent where
  score : ℚ
  weight : ℚ
  weighted_score : ℚ
  deriving DecidableEq

/-- The scoring part of the dictionary returned by
`recommender.explain_recommendation` (activity/child metadata echoes are
omitted). -/
structure Explanation where
  skillComponent : ScoreComponent
  interestComponent : ScoreComponent
  styleComponent : ScoreComponent
  levelComponent : ScoreComponent
  timeComponent : ScoreComponent
  recencyComponent : ScoreComponent
  total : ℚ
  deriving DecidableEq

/-- `recommender.explain_recommendation`: recompute every fit, computing
the recency penalty against `recent_activity_ids(history, k=2)`, attach
weights and weighted contributions, and return the weighted total. -/
def explainRecommendation (c : ChildProfile) (a : Activity)
    (h : List SessionLog) : Explanation :=
  let recentIds := recentActivityIds h 2
  let skillScore := skill_fit a c
  let interestScore := interest_fit a c
  let styleScore := style_fit a c
  let levelScore := level_fit a c
  let timeScore := time_fit a c
  let recencyScore := recency_penalty a.id recentIds 2
  { skillComponent := ⟨skillScore, 0.35, 0.35 * skillScore⟩
    interestComponent := ⟨interestScore, 0.20, 0.20 * interestScore⟩
    styleComponent := ⟨styleScore, 0.15, 0.15 * styleScore⟩
    levelComponent := ⟨levelScore, 0.15, 0.15 * levelScore⟩
    timeComponent := ⟨timeScore, 0.10, 0.10 * timeScore⟩
    recencyComponent := ⟨recencyScore, 0.05, 0.05 * recencyScore⟩
    total := 0.35 * skillScore + 0.20 * interestScore + 0.15 * styleScore +
      0.15 * levelScore + 0.10 * timeScore - 0.05 * recencyScore }

/-- Result of `evaluate.eval_freeform` (the human-readable `reason` string
carries no further data and is omitted). -/
structure FreeformResult where
  meets_min_length : Bool
  keyword_hits : Nat
  score : ℚ
  deriving DecidableEq

/-- `evaluate.eval_freeform`: count sentences as the non-empty trimmed
segments of splitting on `'.'`, compare against `min_sentences`
(default 3), count one hit per rubric keyword occurring (case-insensitive)
in the normalized text, and score `0.6/0.3` plus the capped keyword bonus,
the sum capped at 1. -/
def evalFreeform (text : String) (a : Activity) : FreeformResult :=
  let minSentences := a.rubric.min_sentences.getD 3
  let sentences := ((splitOnDot text.toList).map trimChars).filter (fun s => !s.isEmpty)
  let meets : Bool := decide (minSentences ≤ sentences.length)
  let keywords := a.rubric.keywords.getD []
  let hits : Nat :=
    if keywords = [] then 0
    else keywords.countP (fun kw =>
      containsSub (normalizeText kw).toList (normalizeText text).toList)
  let base : ℚ := if meets then 0.6 else 0.3
  let bonus : ℚ := pyMin ((hits : ℚ) * 0.1) 0.4
  { meets_min_length := meets, keyword_hits := hits, score := pyMin (base + bonus) 1 }

/-- Result of `evaluate.eval_qna`.  The `reason` string is abstracted to
its data: `matched` is the acceptable value the reason cites on success,
`no_answers` marks the explicit "No acceptable answers defined in rubric"
reason. -/
structure QnaResult where
  correct : Bool
  score : ℚ
  matched : Option PyVal
  no_answers : Bool
  deriving DecidableEq

/-- One comparison of the `eval_qna` loop: numeric-to-numeric within
tolerance, string-to-string on normalized equality, any mixed pair fails. -/
def pyMatches (tol : ℚ) (answer acceptable : PyVal) : Bool :=
  match acceptable, answer with
  | .n acc, .n ans => decide (abs (ans - acc) ≤ tol)
  | .s acc, .s ans => normalizeText ans = normalizeText acc
  | .n _, .s _ => false
  | .s _, .n _ => false

/-- The `for acceptable in acceptable_answers … break` loop of `eval_qna`:
the first acceptable value that matches wins. -/
def qnaScan (tol : ℚ) (answer : PyVal) : List PyVal → Option PyVal
  | [] => none
  | acc :: rest =>
      if pyMatches tol answer acc then some acc else qnaScan tol answer rest

/-- `evaluate.eval_qna`: no acceptable answers is an automatic fail with
its explicit reason; otherwise scan for the first matching acceptable
value with `numeric_tolerance` defaulting to 0. -/
def evalQna (answer : PyVal) (a : Activity) : QnaResult :=
  let acceptable := a.rubric.answers.getD []
  if acceptable = [] then
    { correct := false, score := 0, matched := none, no_answers := true }
  else
    let tol := a.rubric.numeric_tolerance.getD 0
    match qnaScan tol answer acceptable with
    | some acc => { correct := true, score := 1, matched := some acc, no_answers := false }
    | none => { correct := false, score := 0, matched := none, no_answers := false }

/-- `buddy.clamp`: `max(min_val, min(value, max_val))`. -/
def clamp (value minVal maxVal : ℚ) : ℚ := pyMax minVal (pyMin value maxVal)

/-- The `delta_map` of `buddy.run_session_once` / `buddy.run_session`. -/
def deltaMap : Outcome → ℚ
  | .success => 0.03
  | .partialCredit => 0.01
  | .struggle => -0.01
  | .skipped => 0

/-- The skill-adaptation loop of `buddy.run_session_once` (lines 143–146):
for every skill listed on the attempted activity, read the current value
(default 0.5), add the outcome delta, clamp to `[0, 1]`, and write back. -/
def adaptSkills (skills : List (String × ℚ)) (activitySkills : List String)
    (o : Outcome) : List (String × ℚ) :=
  activitySkills.foldl
    (fun m sk => dictSet m sk (clamp (dictGetD m sk 0.5 + deltaMap o) 0 1)) skills

/-- A whole sequence of attempts processed by the orchestrator's skill
adaptation: each step carries the attempted activity's skill list and the
attempt's outcome. -/
def adaptSkillsSeq (skills : List (String × ℚ))
    (steps : List (List String × Outcome)) : List (String × ℚ) :=
  steps.foldl (fun m step => adaptSkills m step.1 step.2) skills

/-- The relaxed history exactly as §4.3 step 5 of the spec words it: for
the activity being scored, exclude its attempts from every log (the spec
does not mention dropping logs left empty; compare `relaxedHistory`, which
does drop them). -/
def relaxedHistorySpec (h : List SessionLog) (activityId : String) : List SessionLog :=
  h.map (fun s =>
    { child_id := s.child_id
      attempts := s.attempts.filter (fun att => att.activity_id != activityId) })

/-- An acceptable value matches a submitted answer, as §4.4 of the spec
words it: numeric-to-numeric within the tolerance, string-to-string equal
after lowercasing and whitespace-trimming. -/
def matchesSpec (tol : ℚ) (answer acceptable : PyVal) : Prop :=
  (∃ x y, acceptable = PyVal.n x ∧ answer = PyVal.n y ∧ abs (y - x) ≤ tol) ∨
  (∃ s t, acceptable = PyVal.s s ∧ answer = PyVal.s t ∧
    normalizeText t = normalizeText s)

/-! ## Concrete fixtures for witnesses and counterexamples -/

/-- A learner with no interests, an unrecognized learning style and no
recorded skills: every fit takes its default branch. -/
def childC : ChildProfile :=
  { id := "C001", interests := [], learning_style := "other",
    attention_span_min := 10, baseline_skills := [] }

/-- A small easy math activity. -/
def actA003 : Activity :=
  { id := "A003", type := "math", level := "easy", skills := ["math"],
    tags := [], estimated_min := 5, format := "qna" }

/-- A history in which `A003` is the single (hence most recent) attempt. -/
def histA003 : List SessionLog :=
  [{ child_id := "C001",
     attempts := [{ activity_id := "A003", timestamp := 1, outcome := Outcome.success }] }]

/-- First recorded attempt for the `append_attempt` fixtures. -/
def attemptOne : ActivityAttempt :=
  { activity_id := "activity_001", timestamp := 0, outcome := Outcome.success }

/-- The attempt appended in the `append_attempt` fixtures. -/
def attemptTwo : ActivityAttempt :=
  { activity_id := "activity_002", timestamp := 5, outcome := Outcome.partialCredit }

/-- A one-log history for `child_001` holding only `attemptOne`. -/
def histC2 : List SessionLog := [{ child_id := "child_001", attempts := [attemptOne] }]

/-- Math activity fixture for the diversity-pass witness. -/
def actM1 : Activity :=
  { id := "M1", type := "math", level := "easy", skills := [], tags := [],
    estimated_min := 5, format := "qna" }

/-- Second math activity fixture for the diversity-pass witness. -/
def actM2 : Activity :=
  { id := "M2", type := "math", level := "easy", skills := [], tags := [],
    estimated_min := 5, format := "qna" }

/-- Reading activity fixture for the diversity-pass witness. -/
def actR1 : Activity :=
  { id := "R1", type := "reading", level := "easy", skills := [], tags := [],
    estimated_min := 5, format := "freeform" }

/-- A sorted scored list whose top two entries share one type while a
differently-typed candidate waits beyond position 2. -/
def scoredW : List (Activity × ℚ) := [(actM1, 0.9), (actM2, 0.8), (actR1, 0.5)]

/-- An activity whose rubric is entirely empty (no answers, no keywords). -/
def actEmptyRubric : Activity :=
  { id := "Q1", type := "math", level := "easy", skills := ["math"],
    tags := [], estimated_min := 5, format := "qna" }

/-! ## General lemmas -/

theorem recencyPenaltyOnLogs_eq_zero (aid : String) (h : List SessionLog) (k : Nat) :
    recencyPenaltyOnLogs aid h k = 0 := by
  unfold recencyPenaltyOnLogs pyStrEqSessionLog
  simp

theorem total_score_eq_baseScore (a : Activity) (c : ChildProfile)
    (h : List SessionLog) : total_score a c h = baseScore a c := by
  unfold total_score baseScore
  rw [recencyPenaltyOnLogs_eq_zero]
  ring

/-! ## Claims -/

/-- C4: for every learner, catalog and requested count, and any two
histories, `recommend_activities` returns exactly the same result: the
ranking score's recency term compares the activity id against `SessionLog`
objects and is always 0, and the fallback rescoring has the same property,
so the recommender's output never depends on the history argument. -/
theorem recommend_independent_of_history (c : ChildProfile) (acts : List Activity)
    (k : Nat) (h1 h2 : List SessionLog) :
    recommendActivities c acts h1 k = recommendActivities c acts h2 k := by
  unfold recommendActivities fallbackSelect scoredSorted
  simp only [total_score_eq_baseScore]

/-- C6: whenever `recommend_activities` returns a list, that list has at
most 3 elements, regardless of the requested `k`; and an empty catalog
returns the empty list.  (For `k = 0` with a non-empty catalog the source
raises `ValueError` — modelled as `none` — and returns no list at all.) -/
theorem recommend_caps_at_three (c : ChildProfile) (acts : List Activity)
    (h : List SessionLog) (k : Nat) :
    (∀ l, recommendActivities c acts h k = some l → l.length ≤ 3) ∧
    (acts = [] → recommendActivities c acts h k = some []) := by
  constructor
  · intro l hl
    unfold recommendActivities at hl
    by_cases hacts : acts = []
    · simp only [hacts, if_pos rfl] at hl
      cases hl
      simp
    · simp only [if_neg hacts] at hl
      cases hdp : diversityPass (scoredSorted c acts h) k with
      | none => rw [hdp] at hl; cases hl
      | some sel =>
          rw [hdp] at hl
          cases hl
          simp only [List.length_map, List.length_take]
          omega
  · intro he
    unfold recommendActivities
    simp [he]

/-- C6 witness: an empty catalog yields the empty list, whose length is
within the cap. -/
theorem recommend_caps_at_three_witness :
    recommendActivities childC [] [] 3 = some [] ∧ ([] : List Activity).length ≤ 3 :=
  ⟨(recommend_caps_at_three childC [] [] 3).2 rfl, by simp⟩

theorem explain_total_eq_totalScoreSpec (c : ChildProfile) (a : Activity)
    (h : List SessionLog) :
    (explainRecommendation c a h).total = totalScoreSpec a c h := rfl

/-- C1 (divergence evidence): with `A003` the most recent attempt in the
history, the spec's formula subtracts the 0.05 recency penalty, but the
score the recommender actually ranks with (`total_score` fed the raw
session-log list) never does: its recency term is always 0. -/
theorem ranking_score_ignores_recency :
    total_score actA003 childC histA003 = baseScore actA003 childC ∧
    totalScoreSpec actA003 childC histA003 = baseScore actA003 childC - 0.05 ∧
    total_score actA003 childC histA003 ≠ totalScoreSpec actA003 childC histA003 := by
  have h1 : total_score actA003 childC histA003 = baseScore actA003 childC :=
    total_score_eq_baseScore _ _ _
  have hrec : recentActivityIds histA003 2 = ["A003"] := by decide
  have hpen : recency_penalty actA003.id ["A003"] 2 = 1 := by decide
  have h2 : totalScoreSpec actA003 childC histA003 = baseScore actA003 childC - 0.05 := by
    unfold totalScoreSpec baseScore
    rw [hrec, hpen]
    ring
  refine ⟨h1, h2, ?_⟩
  rw [h1, h2]
  intro hcontra
  linarith

/-- C3 (divergence evidence): on the same triple, the explanation's total
(which does derive the recent-id list before computing the recency
penalty) differs from the score the recommender ranked with by exactly the
0.05 penalty. -/
theorem explanation_total_differs_from_ranking :
    (explainRecommendation childC actA003 histA003).total =
      baseScore actA003 childC - 0.05 ∧
    total_score actA003 childC histA003 = baseScore actA003 childC ∧
    (explainRecommendation childC actA003 histA003).total ≠
      total_score actA003 childC histA003 := by
  have hrec : recentActivityIds histA003 2 = ["A003"] := by decide
  have hpen : recency_penalty actA003.id ["A003"] 2 = 1 := by decide
  have h1 : (explainRecommendation childC actA003 histA003).total =
      baseScore actA003 childC - 0.05 := by
    rw [explain_total_eq_totalScoreSpec]
    unfold totalScoreSpec baseScore
    rw [hrec, hpen]
    ring
  have h2 : total_score actA003 childC histA003 = baseScore actA003 childC :=
    total_score_eq_baseScore _ _ _
  refine ⟨h1, h2, ?_⟩
  rw [h1, h2]
  intro hcontra
  linarith

/-- C2 (mutation evidence): appending an attempt for a child who already
has a session log mutates that log in place; the caller's original history
list afterwards shows the appended attempt, so its logs no longer hold
exactly the attempts they held before the call. -/
theorem append_attempt_mutates_original :
    (appendAttempt histC2 "child_001" attemptTwo).2 =
      [{ child_id := "child_001", attempts := [attemptOne, attemptTwo] }] ∧
    (appendAttempt histC2 "child_001" attemptTwo).2 ≠ histC2 := by
  constructor <;> decide

theorem clamp01_bounds (x : ℚ) : 0 ≤ clamp x 0 1 ∧ clamp x 0 1 ≤ 1 := by
  unfold clamp pyMax pyMin
  split_ifs <;> constructor <;> linarith

theorem dictSet_mem_cases (m : List (String × ℚ)) (key : String) (v : ℚ) :
    ∀ p ∈ dictSet m key v, p ∈ m ∨ p = (key, v) := by
  induction m with
  | nil =>
      intro p hp
      unfold dictSet at hp
      right
      exact List.mem_singleton.mp hp
  | cons q rest ih =>
      intro p hp
      unfold dictSet at hp
      by_cases hq : q.1 = key
      · rw [if_pos hq] at hp
        rcases List.mem_cons.mp hp with h | h
        · right; exact h
        · left; exact List.mem_cons_of_mem _ h
      · rw [if_neg hq] at hp
        rcases List.mem_cons.mp hp with h | h
        · left; rw [h]; exact List.mem_cons_self _ _
        · rcases ih p h with h' | h'
          · left; exact List.mem_cons_of_mem _ h'
          · right; exact h'

theorem dictSet_keys_superset (m : List (String × ℚ)) (key : String) (v : ℚ) :
    ∀ x ∈ m.map Prod.fst, x ∈ (dictSet m key v).map Prod.fst := by
  induction m with
  | nil => simp
  | cons q rest ih =>
      intro x hx
      unfold dictSet
      by_cases hq : q.1 = key
      · rw [if_pos hq]
        simp only [List.map_cons, List.mem_cons] at hx ⊢
        rcases hx with h | h
        · left; rw [h, hq]
        · right; exact h
      · rw [if_neg hq]
        simp only [List.map_cons, List.mem_cons] at hx ⊢
        rcases hx with h | h
        · left; exact h
        · right; exact ih x h

theorem adaptSkills_invariant (activitySkills : List String) (o : Outcome) :
    ∀ m : List (String × ℚ), (∀ p ∈ m, 0 ≤ p.2 ∧ p.2 ≤ 1) →
      (∀ p ∈ adaptSkills m activitySkills o, 0 ≤ p.2 ∧ p.2 ≤ 1) ∧
      (∀ x ∈ m.map Prod.fst, x ∈ (adaptSkills m activitySkills o).map Prod.fst) := by
  induction activitySkills with
  | nil =>
      intro m hm
      unfold adaptSkills
      exact ⟨hm, fun x hx => hx⟩
  | cons sk rest ih =>
      intro m hm
      have hstep : adaptSkills m (sk :: rest) o =
          adaptSkills (dictSet m sk (clamp (dictGetD m sk 0.5 + deltaMap o) 0 1)) rest o := by
        unfold adaptSkills
        rw [List.foldl_cons]
      have hm' : ∀ p ∈ dictSet m sk (clamp (dictGetD m sk 0.5 + deltaMap o) 0 1),
          0 ≤ p.2 ∧ p.2 ≤ 1 := by
        intro p hp
        rcases dictSet_mem_cases m sk _ p hp with h | h
        · exact hm p h
        · rw [h]; exact clamp01_bounds _
      have hrec := ih (dictSet m sk (clamp (dictGetD m sk 0.5 + deltaMap o) 0 1)) hm'
      rw [hstep]
      exact ⟨hrec.1, fun x hx => hrec.2 x (dictSet_keys_superset m sk _ x hx)⟩

/-- C5: starting from a skill map whose values all lie in `[0, 1]`, any
sequence of adaptation steps (each applying the fixed outcome delta to
every skill of the attempted activity, with default 0.5 and clamping)
keeps every stored value in `[0, 1]` and never loses a key. -/
theorem skill_adaptation_bounded (skills : List (String × ℚ))
    (steps : List (List String × Outcome))
    (h : ∀ p ∈ skills, 0 ≤ p.2 ∧ p.2 ≤ 1) :
    (∀ p ∈ adaptSkillsSeq skills steps, 0 ≤ p.2 ∧ p.2 ≤ 1) ∧
    (∀ key ∈ skills.map Prod.fst, key ∈ (adaptSkillsSeq skills steps).map Prod.fst) := by
  induction steps generalizing skills with
  | nil => exact ⟨h, fun key hk => hk⟩
  | cons step rest ih =>
      have hstep : adaptSkillsSeq skills (step :: rest) =
          adaptSkillsSeq (adaptSkills skills step.1 step.2) rest := by
        unfold adaptSkillsSeq
        rw [List.foldl_cons]
      have hinv := adaptSkills_invariant step.1 step.2 skills h
      have hrec := ih (adaptSkills skills step.1 step.2) hinv.1
      rw [hstep]
      exact ⟨hrec.1, fun key hk => hrec.2 key (hinv.2 key hk)⟩

/-- C5 witness: one successful attempt at a one-skill activity, starting
from the skill map `{"math": 0.5}`. -/
theorem skill_adaptation_bounded_witness :
    (∀ p ∈ adaptSkillsSeq [("math", 0.5)] [(["math"], Outcome.success)],
      0 ≤ p.2 ∧ p.2 ≤ 1) ∧
    (∀ key ∈ ([("math", (0.5 : ℚ))].map Prod.fst),
      key ∈ (adaptSkillsSeq [("math", 0.5)] [(["math"], Outcome.success)]).map Prod.fst) :=
  skill_adaptation_bounded [("math", 0.5)] [(["math"], Outcome.success)]
    (by intro p hp; rw [List.mem_singleton] at hp; subst hp; norm_num)

theorem foldlMin_spec (xs : List (Activity × ℚ)) (x : Activity × ℚ) :
    (xs.foldl (fun acc y => if y.2 < acc.2 then y else acc) x) ∈ x :: xs ∧
    ∀ p ∈ x :: xs,
      (xs.foldl (fun acc y => if y.2 < acc.2 then y else acc) x).2 ≤ p.2 := by
  induction xs generalizing x with
  | nil =>
      refine ⟨List.mem_singleton.mpr rfl, ?_⟩
      intro p hp
      rw [List.mem_singleton] at hp
      rw [hp, List.foldl_nil]
  | cons y ys ih =>
      rw [List.foldl_cons]
      obtain ⟨ihmem, ihle⟩ := ih (if y.2 < x.2 then y else x)
      have hite_le_x : (if y.2 < x.2 then y else x).2 ≤ x.2 := by
        split_ifs with hc
        · linarith
        · exact le_refl _
      have hite_le_y : (if y.2 < x.2 then y else x).2 ≤ y.2 := by
        split_ifs with hc
        · exact le_refl _
        · linarith
      constructor
      · rcases List.mem_cons.mp ihmem with h | h
        · rw [h]
          split_ifs
          · exact List.mem_cons_of_mem _ (List.mem_cons_self _ _)
          · exact List.mem_cons_self _ _
        · exact List.mem_cons_of_mem _ (List.mem_cons_of_mem _ h)
      · intro p hp
        rcases List.mem_cons.mp hp with h | h
        · rw [h]
          exact le_trans (ihle _ (List.mem_cons_self _ _)) hite_le_x
        rcases List.mem_cons.mp h with h' | h'
        · rw [h']
          exact le_trans (ihle _ (List.mem_cons_self _ _)) hite_le_y
        · exact ihle p (List.mem_cons_of_mem _ h')

theorem minByScore_spec (l : List (Activity × ℚ)) (hl : l ≠ []) :
    ∃ low, minByScore l = some low ∧ low ∈ l ∧ ∀ p ∈ l, low.2 ≤ p.2 := by
  cases l with
  | nil => exact absurd rfl hl
  | cons x xs =>
      obtain ⟨hmem, hle⟩ := foldlMin_spec xs x
      exact ⟨_, rfl, hmem, hle⟩

theorem diversifySearch_eq_find (rest : List (Activity × ℚ)) (types : List String)
    (sel : List (Activity × ℚ)) (lowest : Activity × ℚ) :
    diversifySearch rest types sel lowest =
      match rest.find? (fun p => !types.contains p.1.type) with
      | some cand => eraseFirst sel lowest ++ [cand]
      | none => sel := by
  induction rest with
  | nil => rfl
  | cons p rest' ih =>
      unfold diversifySearch
      by_cases hc : types.contains p.1.type
      · have h1 : (!types.contains p.1.type) = false := by rw [hc]; rfl
        have h2 : ¬ ((fun q : Activity × ℚ => !types.contains q.1.type) p = true) := by
          simp only [h1]
          exact Bool.false_ne_true
        rw [if_pos hc, ih,
          @List.find?_cons_of_neg _ (fun q : Activity × ℚ => !types.contains q.1.type)
            p rest' h2]
      · have hb : types.contains p.1.type = false := Bool.eq_false_iff.mpr hc
        have h1 : (fun q : Activity × ℚ => !types.contains q.1.type) p = true := by
          show (!types.contains p.1.type) = true
          rw [hb]
          rfl
        rw [if_neg hc,
          @List.find?_cons_of_pos _ (fun q : Activity × ℚ => !types.contains q.1.type)
            p rest' h1]

/-- C7: whenever the top-`k` selection spans fewer than two distinct types
and more candidates exist beyond position `k`, the diversity pass of
`recommend_activities` performs exactly one substitution: it removes the
lowest-scored selected item (the first one attaining the minimal score)
and appends the first candidate after position `k`, in sorted order, whose
type is not yet represented; when no such candidate exists the selection
is returned unchanged. -/
theorem diversity_pass_single_substitution (scored : List (Activity × ℚ)) (k : Nat)
    (hk : 1 ≤ k) (hfew : (distinctTypes (scored.take k)).length < 2)
    (hmore : k < scored.length) :
    ∃ low, minByScore (scored.take k) = some low ∧ low ∈ scored.take k ∧
      (∀ p ∈ scored.take k, low.2 ≤ p.2) ∧
      diversityPass scored k = some
        (match (scored.drop k).find?
            (fun p => !(distinctTypes (scored.take k)).contains p.1.type) with
         | some cand => eraseFirst (scored.take k) low ++ [cand]
         | none => scored.take k) := by
  have hne : scored.take k ≠ [] := by
    intro hcontra
    rcases List.take_eq_nil_iff.mp hcontra with h | h
    · omega
    · rw [h] at hmore
      simp at hmore
  obtain ⟨low, hmin, hmem, hle⟩ := minByScore_spec _ hne
  refine ⟨low, hmin, hmem, hle, ?_⟩
  unfold diversityPass
  rw [if_pos ⟨hfew, hmore⟩, hmin]
  show some (diversifySearch (scored.drop k) (distinctTypes (scored.take k))
    (scored.take k) low) = _
  rw [diversifySearch_eq_find]

/-- C7 witness: two same-type activities on top, a differently-typed
candidate waiting beyond position `k = 2`. -/
theorem diversity_pass_single_substitution_witness :
    ∃ low, minByScore (scoredW.take 2) = some low ∧ low ∈ scoredW.take 2 ∧
      (∀ p ∈ scoredW.take 2, low.2 ≤ p.2) ∧
      diversityPass scoredW 2 = some
        (match (scoredW.drop 2).find?
            (fun p => !(distinctTypes (scoredW.take 2)).contains p.1.type) with
         | some cand => eraseFirst (scoredW.take 2) low ++ [cand]
         | none => scoredW.take 2) :=
  diversity_pass_single_substitution scoredW 2 (by norm_num) (by decide) (by decide)

/-- C8: on a non-empty catalog the fallback recomputation runs exactly
when fewer than two items remain selected after the diversity pass, and it
then recomputes every activity's score against the relaxed history in the
spec's words (all attempts of the activity being scored excluded from
every log), re-sorts descending and takes the top `k` as the new
selection.  (The source additionally drops logs left empty — compare
`relaxedHistory` with `relaxedHistorySpec`; both relaxations yield the
same scores, so the same selection.) -/
theorem recommender_fallback_characterization (c : ChildProfile)
    (acts : List Activity) (h : List SessionLog) (k : Nat) (hne : acts ≠ []) :
    recommendActivities c acts h k =
      (diversityPass (scoredSorted c acts h) k).map (fun sel =>
        ((if sel.length < 2
          then (sortByScoreDesc (acts.map (fun a =>
            (a, total_score a c (relaxedHistorySpec h a.id))))).take k
          else sel).take (min k 3)).map (fun p => p.1)) := by
  unfold recommendActivities
  rw [if_neg hne]
  cases hdp : diversityPass (scoredSorted c acts h) k with
  | none => rfl
  | some sel =>
      simp only [Option.map_some']
      congr 1
      by_cases hlen : sel.length < 2
      · rw [if_pos hlen, if_pos hlen]
        unfold fallbackSelect
        simp only [total_score_eq_baseScore]
      · rw [if_neg hlen, if_neg hlen]

/-- C8 witness: a one-activity catalog, for which only one item survives
the diversity pass and the fallback path is therefore the one taken. -/
theorem recommender_fallback_characterization_witness :
    recommendActivities childC [actA003] histA003 1 =
      (diversityPass (scoredSorted childC [actA003] histA003) 1).map (fun sel =>
        ((if sel.length < 2
          then (sortByScoreDesc ([actA003].map (fun a =>
            (a, total_score a childC (relaxedHistorySpec histA003 a.id))))).take 1
          else sel).take (min 1 3)).map (fun p => p.1)) :=
  recommender_fallback_characterization childC [actA003] histA003 1
    (List.cons_ne_nil _ _)

theorem pyMax_zero_eq (y : ℚ) (hy : 0 ≤ y) : pyMax 0 y = y := by
  unfold pyMax
  split_ifs with hgt
  · rfl
  · linarith

/-- C9: `eval_freeform` counts sentences as the non-empty trimmed
period-separated segments, sets `meets_min_length` iff that count reaches
`min_sentences` (default 3), counts at most one hit per rubric keyword
present case-insensitively in the normalized text, and scores
`(0.6 or 0.3) + min(hits·0.1, 0.4)` clamped to `[0, 1]`; exactly
`min_sentences` sentences with zero hits score exactly 0.6, and six hits
saturate the bonus at 0.4. -/
theorem evaluator_freeform_scoring (text : String) (a : Activity) :
    ((evalFreeform text a).meets_min_length =
      decide (a.rubric.min_sentences.getD 3 ≤
        (((splitOnDot text.toList).map trimChars).filter (fun s => !s.isEmpty)).length)) ∧
    ((evalFreeform text a).keyword_hits =
      (a.rubric.keywords.getD []).countP (fun kw =>
        containsSub (normalizeText kw).toList (normalizeText text).toList)) ∧
    ((evalFreeform text a).keyword_hits ≤ (a.rubric.keywords.getD []).length) ∧
    ((evalFreeform text a).score =
      pyMax 0 (pyMin
        ((if (evalFreeform text a).meets_min_length then (0.6 : ℚ) else 0.3) +
          pyMin (((evalFreeform text a).keyword_hits : ℚ) * 0.1) 0.4) 1)) ∧
    ((((splitOnDot text.toList).map trimChars).filter (fun s => !s.isEmpty)).length =
        a.rubric.min_sentences.getD 3 →
      (evalFreeform text a).keyword_hits = 0 → (evalFreeform text a).score = 0.6) ∧
    ((evalFreeform text a).keyword_hits = 6 →
      (evalFreeform text a).score =
        if (evalFreeform text a).meets_min_length then 1 else 0.7) := by
  have h1 : (evalFreeform text a).meets_min_length =
      decide (a.rubric.min_sentences.getD 3 ≤
        (((splitOnDot text.toList).map trimChars).filter (fun s => !s.isEmpty)).length) := rfl
  have h2 : (evalFreeform text a).keyword_hits =
      (if (a.rubric.keywords.getD []) = [] then 0
       else (a.rubric.keywords.getD []).countP (fun kw =>
        containsSub (normalizeText kw).toList (normalizeText text).toList)) := rfl
  have h2' : (evalFreeform text a).keyword_hits =
      (a.rubric.keywords.getD []).countP (fun kw =>
        containsSub (normalizeText kw).toList (normalizeText text).toList) := by
    rw [h2]
    by_cases hk : a.rubric.keywords.getD [] = []
    · rw [if_pos hk, hk, List.countP_nil]
    · rw [if_neg hk]
  have h3 : (evalFreeform text a).score =
      pyMin ((if (evalFreeform text a).meets_min_length then (0.6 : ℚ) else 0.3) +
        pyMin (((evalFreeform text a).keyword_hits : ℚ) * 0.1) 0.4) 1 := rfl
  have hbonus : (0 : ℚ) ≤ pyMin (((evalFreeform text a).keyword_hits : ℚ) * 0.1) 0.4 := by
    unfold pyMin
    have : (0 : ℚ) ≤ ((evalFreeform text a).keyword_hits : ℚ) * 0.1 := by positivity
    split_ifs <;> linarith
  have hbase : (0 : ℚ) ≤
      (if (evalFreeform text a).meets_min_length then (0.6 : ℚ) else 0.3) := by
    split_ifs <;> norm_num
  have hscore_nonneg : (0 : ℚ) ≤
      pyMin ((if (evalFreeform text a).meets_min_length then (0.6 : ℚ) else 0.3) +
        pyMin (((evalFreeform text a).keyword_hits : ℚ) * 0.1) 0.4) 1 := by
    unfold pyMin
    split_ifs at * <;> linarith
  refine ⟨h1, h2', by rw [h2']; exact List.countP_le_length _, ?_, ?_, ?_⟩
  · rw [h3, pyMax_zero_eq _ hscore_nonneg]
  · intro hn hz
    have hm : (evalFreeform text a).meets_min_length = true := by
      rw [h1]
      apply decide_eq_true
      rw [hn]
    rw [h3, hz, hm]
    norm_num [pyMin]
  · intro h6
    rcases Bool.eq_false_or_eq_true ((evalFreeform text a).meets_min_length) with hm | hm <;>
      rw [h3, h6, hm] <;> norm_num [pyMin]

/-- C9 witness: a three-sentence text against the default rubric (minimum
3 sentences, no keywords) scores exactly 0.6. -/
theorem evaluator_freeform_scoring_witness :
    (evalFreeform "One. Two. Three." actEmptyRubric).score = 0.6 :=
  (evaluator_freeform_scoring "One. Two. Three." actEmptyRubric).2.2.2.2.1
    (by decide) (by decide)

theorem qnaScan_eq_find (tol : ℚ) (answer : PyVal) (l : List PyVal) :
    qnaScan tol answer l = l.find? (pyMatches tol answer) := by
  induction l with
  | nil => rfl
  | cons acc rest ih =>
      unfold qnaScan
      by_cases hm : pyMatches tol answer acc = true
      · rw [if_pos hm, @List.find?_cons_of_pos _ (pyMatches tol answer) acc rest hm]
      · rw [if_neg hm, ih, @List.find?_cons_of_neg _ (pyMatches tol answer) acc rest hm]

theorem pyMatches_iff_matchesSpec (tol : ℚ) (answer acc : PyVal) :
    pyMatches tol answer acc = true ↔ matchesSpec tol answer acc := by
  cases acc with
  | n x =>
      cases answer with
      | n y => simp [pyMatches, matchesSpec]
      | s t => simp [pyMatches, matchesSpec]
  | s sv =>
      cases answer with
      | n y => simp [pyMatches, matchesSpec]
      | s t => simp [pyMatches, matchesSpec]

/-- C10: `eval_qna` returns `correct = true` with score 1 exactly when
some acceptable value matches (numeric within tolerance, string on
normalized equality), the acceptable value it reports is the first match
in rubric order, a non-match scores 0, and an absent or empty acceptable
list is an automatic fail carrying its explicit reason; the function is
total. -/
theorem evaluator_qna_matching (answer : PyVal) (a : Activity) :
    (((evalQna answer a).correct = true ∧ (evalQna answer a).score = 1) ↔
      ∃ acc ∈ a.rubric.answers.getD [],
        matchesSpec (a.rubric.numeric_tolerance.getD 0) answer acc) ∧
    ((evalQna answer a).matched =
      (a.rubric.answers.getD []).find?
        (pyMatches (a.rubric.numeric_tolerance.getD 0) answer)) ∧
    ((evalQna answer a).correct = false → (evalQna answer a).score = 0) ∧
    (a.rubric.answers.getD [] = [] →
      evalQna answer a =
        { correct := false, score := 0, matched := none, no_answers := true }) := by
  by_cases hemp : a.rubric.answers.getD [] = []
  · have heval : evalQna answer a =
        { correct := false, score := 0, matched := none, no_answers := true } := by
      unfold evalQna
      rw [if_pos hemp]
    refine ⟨?_, ?_, ?_, fun _ => heval⟩
    · rw [heval]
      constructor
      · intro hc
        exact absurd hc.1 (by simp)
      · rintro ⟨acc, hacc, _⟩
        rw [hemp] at hacc
        exact absurd hacc (List.not_mem_nil _)
    · rw [heval, hemp]
      rfl
    · intro _
      rw [heval]
  · have heval : evalQna answer a =
        (match qnaScan (a.rubric.numeric_tolerance.getD 0) answer
            (a.rubric.answers.getD []) with
         | some acc =>
            { correct := true, score := 1, matched := some acc, no_answers := false }
         | none =>
            { correct := false, score := 0, matched := none, no_answers := false }) := by
      unfold evalQna
      rw [if_neg hemp]
    cases hscan : qnaScan (a.rubric.numeric_tolerance.getD 0) answer
        (a.rubric.answers.getD []) with
    | some acc =>
        rw [hscan] at heval
        have hfind : (a.rubric.answers.getD []).find?
            (pyMatches (a.rubric.numeric_tolerance.getD 0) answer) = some acc := by
          rw [← qnaScan_eq_find, hscan]
        refine ⟨?_, ?_, ?_, fun hcontra => absurd hcontra hemp⟩
        · rw [heval]
          constructor
          · intro _
            exact ⟨acc, List.mem_of_find?_eq_some hfind,
              (pyMatches_iff_matchesSpec _ _ _).mp (List.find?_some hfind)⟩
          · intro _
            exact ⟨rfl, rfl⟩
        · rw [heval, hfind]
        · rw [heval]
          intro hcontra
          exact absurd hcontra (by simp)
    | none =>
        rw [hscan] at heval
        have hfind : (a.rubric.answers.getD []).find?
            (pyMatches (a.rubric.numeric_tolerance.getD 0) answer) = none := by
          rw [← qnaScan_eq_find, hscan]
        refine ⟨?_, ?_, ?_, fun hcontra => absurd hcontra hemp⟩
        · rw [heval]
          constructor
          · intro hc
            exact absurd hc.1 (by simp)
          · rintro ⟨acc, hacc, hm⟩
            have := List.find?_eq_none.mp hfind acc hacc
            exact absurd ((pyMatches_iff_matchesSpec _ _ _).mpr hm) this
        · rw [heval, hfind]
        · intro _
          rw [heval]

/-- C10 witness: an activity whose rubric defines no acceptable answers is
an automatic, non-raising fail with the explicit no-answers reason. -/
theorem evaluator_qna_matching_witness :
    evalQna (PyVal.s "APPLE") actEmptyRubric =
      { correct := false, score := 0, matched := none, no_answers := true } :=
  (evaluator_qna_matching (PyVal.s "APPLE") actEmptyRubric).2.2.2 rfl
